import Mathlib

/-!
# Verification of the oxiplayer terminal music player

Shallow embedding of the oxiplayer repository (src/main.rs, src/audio.rs).
The directory walker, the terminal, and the audio device are the program's
external collaborators; they enter the model as explicit inputs:

* the `WalkDir` iterator over a directory becomes a list of
  `Except String FsEntry` values (an `Err` element is an unreadable entry;
  an unopenable root produces the one-element list `[.error msg]`);
* the rodio decoding pipeline inside `AudioPlayer::play` becomes an
  `Option String` outcome (`none` = the file opened and decoded,
  `some e` = open/decode failed with message `e`); at the `App` level the
  outcome is a function of the file path, `env : String → Option String`;
* a rodio `Sink` becomes a record of the facts the program observes about
  it: its paused flag, whether its queue has been fully consumed, and its
  volume (a fresh rodio sink starts unpaused at volume 1.0).

Paths are strings; `std::path::Path::file_name` / `extension` and
`str::to_lowercase` are modelled from their documented behaviour on the
character lists underlying the strings (Unicode lowercasing differs from
per-character `Char.toLower` only on characters that cannot occur in the
fixed ASCII extension set, so the extension comparison is unaffected).
`f32` volumes are modelled as rationals: the program only ever clamps and
compares volumes, never does lossy arithmetic on the values the claims
mention. Rust `Result` becomes `Except String`.
-/

/-- One playable audio file (struct `MusicFile` in main.rs). -/
structure MusicFile where
  path : String
  name : String
deriving DecidableEq, Repr

/-- One entry yielded by the directory walker: its path and whether it is a
directory.  `scan_music_files` never consults `isDir` — exactly as the Rust
code never calls `file_type()` on a `walkdir` entry. -/
structure FsEntry where
  path : String
  isDir : Bool
deriving DecidableEq, Repr

/-- Split a character list at a separator character, keeping empty pieces —
the behaviour of `str::split` / `String::splitOn` with a one-character
separator, written as structural recursion so that it evaluates. -/
def splitOnChar (sep : Char) : List Char → List (List Char)
  | [] => [[]]
  | c :: cs =>
    if c = sep then [] :: splitOnChar sep cs
    else
      match splitOnChar sep cs with
      | h :: t => (c :: h) :: t
      | [] => [[c]]

/-- Modelled from `std::path::Path::file_name`: the final normal component
of the path — `none` for a path ending in `..` or with no component at all.
Empty components and `.` components are skipped, as `Path::components`
does. -/
def fileName (p : String) : Option String :=
  let comps := (splitOnChar '/' p.data).filter fun c => decide (c ≠ [] ∧ c ≠ ['.'])
  match comps.getLast? with
  | some c => if c = ['.', '.'] then none else some (String.mk c)
  | none => none

/-- Modelled from `std::path::Path::extension`, applied to a file name: the
portion after the last `.`, and `none` when there is no `.` or when the
name begins with its only `.` (such as `.gitignore`). -/
def extensionOfName (f : String) : Option String :=
  match splitOnChar '.' f.data with
  | [] => none
  | [_] => none
  | p0 :: rest =>
    if p0 = [] ∧ rest.length = 1 then none
    else rest.getLast?.map String.mk

/-- `Path::extension` on a whole path: the extension of its file name. -/
def pathExtension (p : String) : Option String :=
  (fileName p).bind extensionOfName

/-- Modelled from `str::to_lowercase` restricted to the characters that can
influence a comparison against the ASCII extension set. -/
def lowerAscii (s : String) : String :=
  String.mk (s.data.map Char.toLower)

/-- The fixed extension set of `scan_music_files` (main.rs line 68). -/
def musicExtensions : List String :=
  ["mp3", "wav", "flac", "ogg", "m4a", "aac"]

/-- The body of the `scan_music_files` loop for one readable entry: extract
the extension, lowercase it, test membership in `musicExtensions`, and
build a `MusicFile` from the path and its file name (main.rs lines 71-83,
with `to_str`/`to_string_lossy` the identity on our string model). -/
def toTrack (p : String) : Option MusicFile :=
  match pathExtension p with
  | some ext =>
    if musicExtensions.contains (lowerAscii ext) then
      match fileName p with
      | some n => some { path := p, name := n }
      | none => none
    else none
  | none => none

/-- Insert into a sorted-by-`le` list, keeping earlier elements first on
ties — the stable insertion underlying `sortByKey`. -/
def insertLe (le : α → α → Bool) (x : α) : List α → List α
  | [] => [x]
  | y :: ys => if le x y then x :: y :: ys else y :: insertLe le x ys

/-- Stable comparison sort, modelling `Vec::sort_by` observationally (the
claims depend only on the multiset of results). -/
def sortByLe (le : α → α → Bool) : List α → List α
  | [] => []
  | x :: xs => insertLe le x (sortByLe le xs)

/-- Lexicographic byte order on names — `String::cmp` in Rust compares
UTF-8 bytes, whose order coincides with codepoint order. -/
def listCharLe : List Char → List Char → Bool
  | [], _ => true
  | _ :: _, [] => false
  | a :: as, b :: bs => if a = b then listCharLe as bs else decide (a.toNat < b.toNat)

/-- The comparator of `files.sort_by(|a, b| a.name.cmp(&b.name))`. -/
def musicFileLe (a b : MusicFile) : Bool :=
  listCharLe a.name.data b.name.data

/-- `App::scan_music_files` (main.rs lines 66-88).  The walker stream is the
input; `filter_map(|e| e.ok())` drops every `Err` entry, each surviving
entry goes through the extension filter, and the result is sorted by
display name.  The `Result` return type of the Rust function is kept even
though no path of the body produces an `Err`. -/
def scan_music_files (entries : List (Except String FsEntry)) :
    Except String (List MusicFile) :=
  let files := entries.filterMap fun e =>
    match e with
    | .ok ent => toTrack ent.path
    | .error _ => none
  .ok (sortByLe musicFileLe files)

/-- Does a path pass the extension filter of the scan?  (Only the
extension is consulted — not whether the entry is a regular file.) -/
def matchesExt (p : String) : Bool :=
  match pathExtension p with
  | some ext => musicExtensions.contains (lowerAscii ext)
  | none => false

/-- The observable state of a live rodio `Sink`: its paused flag, whether
its queued audio has been fully consumed, and its volume.  A freshly
constructed sink is unpaused with volume 1.0 (the rodio default); after
`append` its queue is non-empty. -/
structure Sink where
  paused : Bool
  queueEmpty : Bool
  volume : Rat
deriving DecidableEq, Repr

/-- `AudioPlayer` (audio.rs): the output stream handle plus at most one
live sink behind a mutex, modelled as `Option Sink`. -/
structure AudioPlayer where
  sink : Option Sink
deriving DecidableEq, Repr

/-- `AudioPlayer::stop` (audio.rs lines 46-52): take and stop the sink. -/
def AudioPlayer.stop (p : AudioPlayer) : AudioPlayer :=
  { p with sink := none }

/-- `AudioPlayer::play` (audio.rs lines 25-44): first `stop` the current
sink, then create a fresh sink, open and decode the file, append the
source and start it.  `outcome` is the environment's verdict on the
open/decode pipeline: `some e` means one of `Sink::try_new`, `File::open`
or `Decoder::new` failed with message `e` — the early `?` return then
leaves the player with no sink (the old one was already stopped);
`none` means success and the fresh sink (unpaused, queue non-empty,
rodio default volume 1.0) is stored. -/
def AudioPlayer.play (p : AudioPlayer) (outcome : Option String) :
    AudioPlayer × Option String :=
  let stopped := p.stop
  match outcome with
  | some e => (stopped, some e)
  | none =>
    ({ stopped with sink := some { paused := false, queueEmpty := false, volume := 1 } },
     none)

/-- `AudioPlayer::pause` (audio.rs lines 54-60). -/
def AudioPlayer.pause (p : AudioPlayer) : AudioPlayer :=
  match p.sink with
  | some s => { p with sink := some { s with paused := true } }
  | none => p

/-- `AudioPlayer::resume` (audio.rs lines 62-68). -/
def AudioPlayer.resume (p : AudioPlayer) : AudioPlayer :=
  match p.sink with
  | some s => { p with sink := some { s with paused := false } }
  | none => p

/-- `AudioPlayer::is_empty` (audio.rs lines 79-86): true with no sink, else
whether the sink's queue has been fully consumed. -/
def AudioPlayer.is_empty (p : AudioPlayer) : Bool :=
  match p.sink with
  | some s => s.queueEmpty
  | none => true

/-- `AudioPlayer::set_volume` (audio.rs lines 88-94): clamp into
`[0.0, 1.0]` and apply to the sink — if one exists.  Nothing is stored
when there is no sink. -/
def AudioPlayer.set_volume (p : AudioPlayer) (v : Rat) : AudioPlayer :=
  match p.sink with
  | some s => { p with sink := some { s with volume := min (max v 0) 1 } }
  | none => p

/-- `App` (main.rs lines 27-37).  `list_state` models the ratatui
`ListState` selection. -/
structure App where
  music_files : List MusicFile
  selected_index : Nat
  list_state : Option Nat
  audio_player : AudioPlayer
  current_playing : Option String
  status_message : String
  music_directory : String
  is_paused : Bool
  volume : Rat
deriving DecidableEq, Repr

/-- `App::next` (main.rs lines 90-95). -/
def App.next (a : App) : App :=
  if a.music_files.isEmpty then a
  else
    let i := (a.selected_index + 1) % a.music_files.length
    { a with selected_index := i, list_state := some i }

/-- `App::previous` (main.rs lines 97-106). -/
def App.previous (a : App) : App :=
  if a.music_files.isEmpty then a
  else
    let i := if a.selected_index = 0 then a.music_files.length - 1
             else a.selected_index - 1
    { a with selected_index := i, list_state := some i }

/-- `App::play_selected` (main.rs lines 108-130).  `env` maps a file path
to the open/decode outcome of `AudioPlayer::play` on it.  Note that the
`Err` arm updates only the status message (and the player, which the
failed `play` call already mutated): `current_playing` and `is_paused`
keep their prior values. -/
def App.play_selected (env : String → Option String) (a : App) :
    Except String App :=
  if a.music_files.isEmpty then
    .ok { a with status_message := "No music files available to play" }
  else
    match a.music_files[a.selected_index]? with
    | some file =>
      match a.audio_player.play (env file.path) with
      | (player, none) =>
        .ok { a with
                audio_player := player.set_volume a.volume,
                current_playing := some file.name,
                is_paused := false,
                status_message := "♪ Playing: " ++ file.name }
      | (player, some e) =>
        .ok { a with
                audio_player := player,
                status_message := "Error playing file: " ++ e }
    | none => .ok { a with status_message := "No file selected" }

/-- `App::play_next` (main.rs lines 167-181): remember whether the cursor
was on the last track, advance, play, and when the advance wrapped
overwrite the status with the loop-back message. -/
def App.play_next (env : String → Option String) (a : App) :
    Except String App :=
  if a.music_files.isEmpty then .ok a
  else
    let was_at_end := a.selected_index = a.music_files.length - 1
    (a.next.play_selected env).bind fun a2 =>
      if was_at_end then
        match a2.music_files[0]? with
        | some file =>
          .ok { a2 with
                  status_message := "♪ Looped to beginning - Playing: " ++ file.name }
        | none => .ok a2
      else .ok a2

/-- `App::play_previous` (main.rs lines 183-189). -/
def App.play_previous (env : String → Option String) (a : App) :
    Except String App :=
  if a.music_files.isEmpty then .ok a
  else a.previous.play_selected env

/-- `App::refresh_files` (main.rs lines 203-219): rescan the stored
directory (`fs` gives the walker stream a root produces), clamp the cursor
when it fell out of range of a non-empty result, synchronise the list
selection, and report the new count. -/
def App.refresh_files (fs : String → List (Except String FsEntry)) (a : App) :
    Except String App :=
  (scan_music_files (fs a.music_directory)).bind fun files =>
    let idx := if a.selected_index ≥ files.length ∧ ¬files.isEmpty
               then files.length - 1 else a.selected_index
    let ls := if files.isEmpty then none else some idx
    .ok { a with
            music_files := files,
            selected_index := idx,
            list_state := ls,
            status_message :=
              if files.isEmpty then "No music files found in directory"
              else "Refreshed - Found " ++ toString files.length ++ " music files" }

/-- The auto-advance poll at the top of `run_app`'s loop (main.rs lines
274-277): when a track is marked playing, not paused, and the backend's
queue is empty, set the transient status and call `play_next` (whose `?`
propagates, hence the `Except` result). -/
def pollAutoAdvance (env : String → Option String) (a : App) :
    Except String App :=
  if a.current_playing.isSome && !a.is_paused && a.audio_player.is_empty then
    App.play_next env { a with status_message := "Auto-advancing to next song..." }
  else .ok a

/-- The cursor-moving operations claim C3 quantifies over.  `playNext`,
`playPrevious` and `refresh` carry the environment their run consumed. -/
inductive Op where
  | next : Op
  | previous : Op
  | playNext : (String → Option String) → Op
  | playPrevious : (String → Option String) → Op
  | refresh : (String → List (Except String FsEntry)) → Op

/-- Apply one operation the way the event loop does; an `Err` escaping a
controller call would abort the loop, leaving the state as it was. -/
def Op.apply (o : Op) (a : App) : App :=
  match o with
  | .next => a.next
  | .previous => a.previous
  | .playNext env =>
    match a.play_next env with
    | .ok a2 => a2
    | .error _ => a
  | .playPrevious env =>
    match a.play_previous env with
    | .ok a2 => a2
    | .error _ => a
  | .refresh fs =>
    match a.refresh_files fs with
    | .ok a2 => a2
    | .error _ => a

/-- Run a sequence of operations. -/
def runOps (ops : List Op) (a : App) : App :=
  match ops with
  | [] => a
  | o :: rest => runOps rest (o.apply a)

/-- The cursor invariant of §3 of the spec: in-range whenever the library
is non-empty. -/
def cursorInv (a : App) : Prop :=
  a.music_files ≠ [] → a.selected_index < a.music_files.length

instance : DecidableEq (Except String App) := fun a b =>
  match a, b with
  | .ok x, .ok y => if h : x = y then .isTrue (by rw [h]) else .isFalse (by simp [h])
  | .error x, .error y => if h : x = y then .isTrue (by rw [h]) else .isFalse (by simp [h])
  | .ok _, .error _ => .isFalse (by simp)
  | .error _, .ok _ => .isFalse (by simp)

instance : DecidableEq (Except String (List MusicFile)) := fun a b =>
  match a, b with
  | .ok x, .ok y => if h : x = y then .isTrue (by rw [h]) else .isFalse (by simp [h])
  | .error x, .error y => if h : x = y then .isTrue (by rw [h]) else .isFalse (by simp [h])
  | .ok _, .error _ => .isFalse (by simp)
  | .error _, .ok _ => .isFalse (by simp)

/-! Concrete states and environments used to instantiate the theorems. -/

/-- The 0.7 volume `App::new` starts with, as an explicit reduced
rational so that every operation on it evaluates. -/
def vol07 : Rat := ⟨7, 10, by decide, by decide⟩

/-- An app state with the fields `App::new` produces for an empty library
(volume 0.7, nothing playing, backend idle). -/
def baseApp : App :=
  { music_files := []
    selected_index := 0
    list_state := none
    audio_player := { sink := none }
    current_playing := none
    status_message := "Ready"
    music_directory := "m"
    is_paused := false
    volume := vol07 }

/-- An environment in which every file opens and decodes. -/
def envOk : String → Option String := fun _ => none

/-- An environment in which every open/decode attempt fails. -/
def envFail : String → Option String := fun _ => some "decode error"

/-- A two-track library. -/
def twoTracks : List MusicFile :=
  [{ path := "m/a.mp3", name := "a.mp3" }, { path := "m/b.mp3", name := "b.mp3" }]

/-- A three-track library. -/
def threeTracks : List MusicFile :=
  [{ path := "m/a.mp3", name := "a.mp3" }, { path := "m/b.mp3", name := "b.mp3" },
   { path := "m/c.mp3", name := "c.mp3" }]

/-- A state in which a failed play can show a stale name: one (corrupt)
track in the library while `old.mp3` is marked playing. -/
def appStale : App :=
  { baseApp with
      music_files := [{ path := "m/bad.mp3", name := "bad.mp3" }]
      list_state := some 0
      current_playing := some "old.mp3" }

/-- Cursor at 4 — about to refresh against a two-file directory. -/
def appCursor4 : App := { baseApp with selected_index := 4 }

/-- A filesystem whose walk yields two audio files (unsorted). -/
def fsTwo : String → List (Except String FsEntry) :=
  fun _ => [.ok { path := "m/b.mp3", isDir := false }, .ok { path := "m/a.mp3", isDir := false }]

/-- The state `refresh_files fsTwo appCursor4` produces. -/
def appCursor4Refreshed : App :=
  { baseApp with
      music_files := twoTracks
      selected_index := 1
      list_state := some 1
      status_message := "Refreshed - Found 2 music files" }

/-- Two-track library with the cursor on the last track. -/
def appLast : App :=
  { baseApp with music_files := twoTracks, selected_index := 1, list_state := some 1 }

/-- Two-track library with the cursor on the first (non-last) track. -/
def appFirst : App :=
  { baseApp with music_files := twoTracks, selected_index := 0, list_state := some 0 }

/-- `play_next envOk appLast` wraps and reports the loop-back. -/
def appLastNexted : App :=
  { baseApp with
      music_files := twoTracks
      selected_index := 0
      list_state := some 0
      audio_player := { sink := some { paused := false, queueEmpty := false, volume := vol07 } }
      current_playing := some "a.mp3"
      status_message := "♪ Looped to beginning - Playing: a.mp3" }

/-- `play_next envOk appFirst` advances normally. -/
def appFirstNexted : App :=
  { baseApp with
      music_files := twoTracks
      selected_index := 1
      list_state := some 1
      audio_player := { sink := some { paused := false, queueEmpty := false, volume := vol07 } }
      current_playing := some "b.mp3"
      status_message := "♪ Playing: b.mp3" }

/-- Empty library while `gone.mp3` is still marked playing — the state a
refresh against an emptied directory leaves behind during playback. -/
def appGone : App :=
  { baseApp with
      current_playing := some "gone.mp3"
      status_message := "No music files found in directory" }

/-- A walker entry list containing a directory whose name carries an audio
extension, and no regular file at all. -/
def treeDirMp3 : List FsEntry :=
  [{ path := "m", isDir := true }, { path := "m/album.mp3", isDir := true }]

/-- A walker entry list with one matching file, one non-matching file and
the root directory. -/
def treeMixed : List FsEntry :=
  [{ path := "m", isDir := true },
   { path := "m/a.mp3", isDir := false },
   { path := "m/c.txt", isDir := false }]

/-- Three tracks with the cursor on the last one. -/
def appWrapLast : App :=
  { baseApp with music_files := threeTracks, selected_index := 2, list_state := some 2 }

/-- Three tracks with the cursor on the first one. -/
def appWrapFirst : App :=
  { baseApp with music_files := threeTracks, selected_index := 0, list_state := some 0 }

/-- Mid-playback state whose track has just finished: a name is marked
playing, not paused, and the sink's queue is fully consumed. -/
def appDone : App :=
  { baseApp with
      music_files := twoTracks
      list_state := some 0
      audio_player := { sink := some { paused := false, queueEmpty := true, volume := vol07 } }
      current_playing := some "a.mp3"
      status_message := "♪ Playing: a.mp3" }

/-! ## Helper lemmas -/

theorem insertLe_perm (le : α → α → Bool) (x : α) (l : List α) :
    (insertLe le x l).Perm (x :: l) := by
  induction l with
  | nil => exact List.Perm.refl _
  | cons y ys ih =>
    unfold insertLe
    split
    · exact List.Perm.refl _
    · exact (List.Perm.cons y ih).trans (List.Perm.swap x y ys)

theorem sortByLe_perm (le : α → α → Bool) (l : List α) :
    (sortByLe le l).Perm l := by
  induction l with
  | nil => exact List.Perm.refl _
  | cons x xs ih =>
    unfold sortByLe
    exact (insertLe_perm le x _).trans (List.Perm.cons x ih)

theorem length_filterMap_isSome (f : α → Option β) (l : List α) :
    (l.filterMap f).length = (l.filter fun x => (f x).isSome).length := by
  induction l with
  | nil => rfl
  | cons x xs ih => cases hfx : f x <;> simp [List.filterMap_cons, List.filter_cons, hfx, ih]

theorem fileName_of_pathExtension {p ext : String}
    (h : pathExtension p = some ext) : ∃ f, fileName p = some f := by
  unfold pathExtension at h
  cases hf : fileName p with
  | none => rw [hf] at h; cases h
  | some f => exact ⟨f, rfl⟩

theorem toTrack_isSome (p : String) : (toTrack p).isSome = matchesExt p := by
  unfold toTrack matchesExt
  cases hpe : pathExtension p with
  | none => rfl
  | some ext =>
    by_cases hc : lowerAscii ext ∈ musicExtensions
    · obtain ⟨f, hf⟩ := fileName_of_pathExtension hpe
      simp [hc, hf]
    · simp [hc]

theorem toTrack_eq_some {p : String} {t : MusicFile} (h : toTrack p = some t) :
    t.path = p ∧ fileName p = some t.name ∧ matchesExt p = true := by
  cases hpe : pathExtension p with
  | none => simp [toTrack, hpe] at h
  | some ext =>
    obtain ⟨f, hf⟩ := fileName_of_pathExtension hpe
    by_cases hc : musicExtensions.contains (lowerAscii ext) = true
    · simp only [toTrack, hpe, hf, hc, if_true, Option.some.injEq] at h
      subst h
      exact ⟨rfl, by simpa using hf, by simp only [matchesExt, hpe]; exact hc⟩
    · simp [toTrack, hpe, hc] at h
      exact absurd (by simpa using h.1) hc

theorem matchesExt_toTrack {p : String} (h : matchesExt p = true) :
    ∃ n, fileName p = some n ∧ toTrack p = some { path := p, name := n } := by
  cases hpe : pathExtension p with
  | none => simp [matchesExt, hpe] at h
  | some ext =>
    simp only [matchesExt, hpe] at h
    obtain ⟨f, hf⟩ := fileName_of_pathExtension hpe
    refine ⟨f, hf, ?_⟩
    simp [toTrack, hpe, hf]
    simpa using h

theorem next_music_files (a : App) : a.next.music_files = a.music_files := by
  unfold App.next; split <;> rfl

theorem previous_music_files (a : App) : a.previous.music_files = a.music_files := by
  unfold App.previous; split <;> rfl

theorem play_selected_ok (env : String → Option String) (a : App) :
    ∃ a', a.play_selected env = .ok a' := by
  unfold App.play_selected
  split
  · exact ⟨_, rfl⟩
  · split
    · split
      · exact ⟨_, rfl⟩
      · exact ⟨_, rfl⟩
    · exact ⟨_, rfl⟩

theorem play_selected_fields {env : String → Option String} {a a' : App}
    (h : a.play_selected env = .ok a') :
    a'.music_files = a.music_files ∧ a'.selected_index = a.selected_index ∧
    a'.list_state = a.list_state ∧ a'.music_directory = a.music_directory ∧
    a'.volume = a.volume := by
  unfold App.play_selected at h
  split at h
  · injection h with h; subst h; simp
  · split at h
    · split at h
      · injection h with h; subst h; simp
      · injection h with h; subst h; simp
    · injection h with h; subst h; simp

theorem play_next_ok (env : String → Option String) (a : App) :
    ∃ a', a.play_next env = .ok a' := by
  unfold App.play_next
  split
  · exact ⟨_, rfl⟩
  · obtain ⟨a2, h2⟩ := play_selected_ok env a.next
    rw [h2]; simp only [Except.bind]
    split
    · split
      · exact ⟨_, rfl⟩
      · exact ⟨_, rfl⟩
    · exact ⟨_, rfl⟩

theorem play_previous_ok (env : String → Option String) (a : App) :
    ∃ a', a.play_previous env = .ok a' := by
  unfold App.play_previous
  split
  · exact ⟨_, rfl⟩
  · exact play_selected_ok env a.previous

theorem refresh_ok (fs : String → List (Except String FsEntry)) (a : App) :
    ∃ a', a.refresh_files fs = .ok a' := ⟨_, rfl⟩

theorem play_next_fields {env : String → Option String} {a a' : App}
    (h : a.play_next env = .ok a') :
    a'.music_files = a.music_files ∧ a'.selected_index = a.next.selected_index := by
  unfold App.play_next at h
  split at h
  · rename_i hemp
    injection h with h
    subst h
    refine ⟨rfl, ?_⟩
    simp [App.next, hemp]
  · obtain ⟨a2, h2⟩ := play_selected_ok env a.next
    rw [h2] at h; simp only [Except.bind] at h
    obtain ⟨hmf, hsel, _⟩ := play_selected_fields h2
    split at h
    · split at h
      · injection h with h
        subst h
        exact ⟨by simpa [next_music_files] using hmf, hsel⟩
      · injection h with h
        subst h
        exact ⟨by simpa [next_music_files] using hmf, hsel⟩
    · injection h with h
      subst h
      exact ⟨by simpa [next_music_files] using hmf, hsel⟩

theorem play_previous_fields {env : String → Option String} {a a' : App}
    (h : a.play_previous env = .ok a') :
    a'.music_files = a.music_files ∧ a'.selected_index = a.previous.selected_index := by
  unfold App.play_previous at h
  split at h
  · rename_i hemp
    injection h with h
    subst h
    refine ⟨rfl, ?_⟩
    simp [App.previous, hemp]
  · obtain ⟨hmf, hsel, _⟩ := play_selected_fields h
    exact ⟨by simpa [previous_music_files] using hmf, hsel⟩

theorem next_inv (a : App) : cursorInv a.next := by
  intro hne
  unfold App.next at hne ⊢
  by_cases hemp : a.music_files.isEmpty
  · rw [if_pos hemp] at hne ⊢
    exact absurd (List.isEmpty_iff.mp hemp) hne
  · rw [if_neg hemp] at hne ⊢
    have hlen : 0 < a.music_files.length := by
      cases hl : a.music_files with
      | nil => rw [hl] at hemp; simp at hemp
      | cons x xs => simp [hl]
    simpa using Nat.mod_lt _ hlen

theorem previous_inv (a : App) (h : cursorInv a) : cursorInv a.previous := by
  intro hne
  unfold App.previous at hne ⊢
  by_cases hemp : a.music_files.isEmpty
  · rw [if_pos hemp] at hne ⊢
    exact absurd (List.isEmpty_iff.mp hemp) hne
  · rw [if_neg hemp] at hne ⊢
    have hne2 : a.music_files ≠ [] := by
      intro hl; rw [hl] at hemp; simp at hemp
    have hlt := h hne2
    simp only []
    by_cases h0 : a.selected_index = 0
    · simp [h0]
      omega
    · simp [h0]
      omega

theorem play_selected_status_irrel (env : String → Option String) (a : App) (s : String) :
    App.play_selected env { a with status_message := s } = a.play_selected env := by
  rcases a with ⟨mf, si, ls, ap, cp, sm, md, ip, v⟩
  rfl

theorem next_status (a : App) (s : String) :
    App.next { a with status_message := s } = { a.next with status_message := s } := by
  rcases a with ⟨mf, si, ls, ap, cp, sm, md, ip, v⟩
  unfold App.next
  by_cases hemp : mf.isEmpty = true
  · simp [hemp]
  · simp [hemp]

theorem play_next_status_irrel (env : String → Option String) (a : App) (s : String)
    (hne : a.music_files ≠ []) :
    App.play_next env { a with status_message := s } = a.play_next env := by
  have hemp : a.music_files.isEmpty = false := by simpa using hne
  simp only [App.play_next, hemp, next_status, play_selected_status_irrel]
  rfl

theorem string_append_ne {prf1 prf2 : String} (i : Nat) (c d : Char)
    (hp : prf1.data[i]? = some c) (hq : prf2.data[i]? = some d) (hcd : c ≠ d)
    (x y : String) : prf1 ++ x ≠ prf2 ++ y := by
  intro h
  have hd : (prf1 ++ x).data = (prf2 ++ y).data := by rw [h]
  rw [String.data_append, String.data_append] at hd
  have hip : i < prf1.data.length := (List.getElem?_eq_some.mp hp).1
  have hiq : i < prf2.data.length := (List.getElem?_eq_some.mp hq).1
  have h1 : (prf1.data ++ x.data)[i]? = some c := by
    rw [List.getElem?_append, if_pos hip]; exact hp
  have h2 : (prf2.data ++ y.data)[i]? = some d := by
    rw [List.getElem?_append, if_pos hiq]; exact hq
  rw [hd, h2] at h1
  exact hcd (Option.some.inj h1).symm

theorem play_selected_success_state (env : String → Option String) (a : App)
    {f : MusicFile} (hf : a.music_files[a.selected_index]? = some f)
    (henv : env f.path = none) :
    a.play_selected env =
      .ok { a with
              audio_player := (a.audio_player.play (env f.path)).1.set_volume a.volume,
              current_playing := some f.name,
              is_paused := false,
              status_message := "♪ Playing: " ++ f.name } := by
  have hne : ¬(a.music_files.isEmpty = true) := by
    intro hemp
    rw [List.isEmpty_iff.mp hemp] at hf
    cases hf
  unfold App.play_selected
  rw [if_neg hne, hf]
  dsimp only
  rw [henv]
  rfl

theorem play_selected_failure_state (env : String → Option String) (a : App)
    {f : MusicFile} {e : String} (hf : a.music_files[a.selected_index]? = some f)
    (henv : env f.path = some e) :
    a.play_selected env =
      .ok { a with
              audio_player := { sink := none },
              status_message := "Error playing file: " ++ e } := by
  have hne : ¬(a.music_files.isEmpty = true) := by
    intro hemp
    rw [List.isEmpty_iff.mp hemp] at hf
    cases hf
  unfold App.play_selected
  rw [if_neg hne, hf]
  dsimp only
  rw [henv]
  rfl

/-! ## Claims -/

/-- C1 (amended): when the backend `play` call made by `play_selected`
fails on the track at the cursor, the status message becomes the error
status describing the failure and the backend ends Idle (no sink), but the
currently-playing field is left exactly as it was before the call — `none`
if nothing was playing, and the stale previous name if a track was playing
(the paused flag is likewise untouched). -/
theorem play_selected_failure_spec (env : String → Option String) (a : App)
    (f : MusicFile) (e : String)
    (hf : a.music_files[a.selected_index]? = some f)
    (henv : env f.path = some e) :
    ∃ r, a.play_selected env = .ok r ∧
      r.status_message = "Error playing file: " ++ e ∧
      r.audio_player = { sink := none } ∧
      r.current_playing = a.current_playing ∧
      r.is_paused = a.is_paused :=
  ⟨_, play_selected_failure_state env a hf henv, rfl, rfl, rfl, rfl⟩

/-- C1 witness: the amended statement evaluated on a concrete failing
play. -/
theorem play_selected_failure_spec_witness :
    ∃ r, App.play_selected envFail appStale = .ok r ∧
      r.status_message = "Error playing file: " ++ "decode error" ∧
      r.audio_player = { sink := none } ∧
      r.current_playing = appStale.current_playing ∧
      r.is_paused = appStale.is_paused :=
  play_selected_failure_spec envFail appStale
    { path := "m/bad.mp3", name := "bad.mp3" } "decode error" (by decide) rfl

/-- C1 counterexample: with `old.mp3` marked playing, a failed
`play_selected` keeps `old.mp3` as the currently-playing name — the claim
says the field is none after any backend failure. -/
theorem play_selected_failure_stale :
    appStale.current_playing = some "old.mp3" ∧
    envFail "m/bad.mp3" = some "decode error" ∧
    App.play_selected envFail appStale =
      .ok { appStale with
              audio_player := { sink := none },
              status_message := "Error playing file: decode error" } ∧
    ¬ ({ appStale with
           audio_player := { sink := none },
           status_message := "Error playing file: decode error" } : App).current_playing = none := by
  refine ⟨rfl, rfl, by decide, by decide⟩

/-- C2 (amended): `scan` never returns an error at all: every walker
stream yields an `Ok` library, and an unreadable entry anywhere in the
stream is skipped without affecting the rest of the scan. -/
theorem scan_never_fails :
    (∀ entries, ∃ files, scan_music_files entries = .ok files) ∧
    (∀ (pre post : List (Except String FsEntry)) (e : String),
      scan_music_files (pre ++ .error e :: post) = scan_music_files (pre ++ post)) := by
  constructor
  · intro entries; exact ⟨_, rfl⟩
  · intro pre post e
    simp [scan_music_files, List.filterMap_append]

/-- C2 counterexample: a root that cannot be opened makes the walker yield
one `Err` entry, and `scan` returns `Ok []` — not an error as the claim
requires. -/
theorem scan_unopenable_root_is_ok :
    scan_music_files [.error "permission denied"] = .ok [] := by decide

/-- C4 (amended): `set_volume` clamps the value into [0.0, 1.0] and
applies it to the active session when one exists (the clamp is the
identity on in-range values); with no session the call leaves the backend
completely unchanged — nothing is remembered — and a subsequent `play`
starts its fresh session at the sink default volume 1.0 regardless. -/
theorem set_volume_clamps (v : Rat) (s : Sink) :
    (AudioPlayer.set_volume { sink := none } v = { sink := none }) ∧
    (∃ w, AudioPlayer.set_volume { sink := some s } v =
        { sink := some { s with volume := w } } ∧
      0 ≤ w ∧ w ≤ 1 ∧ (0 ≤ v → v ≤ 1 → w = v)) ∧
    ((AudioPlayer.play { sink := some s } none).1.sink =
      some { paused := false, queueEmpty := false, volume := 1 }) := by
  refine ⟨rfl, ⟨min (max v 0) 1, rfl, ?_, ?_, ?_⟩, rfl⟩
  · exact le_min (le_max_right v 0) zero_le_one
  · exact min_le_right _ _
  · intro h0 h1
    rw [max_eq_left h0]
    exact min_eq_left h1

/-- C4 witness: setting volume 0.5 on a live session applies exactly
0.5. -/
theorem set_volume_clamps_witness :
    AudioPlayer.set_volume
        { sink := some { paused := false, queueEmpty := false, volume := 1 } } (1 / 2) =
      { sink := some { paused := false, queueEmpty := false, volume := 1 / 2 } } := by
  obtain ⟨-, ⟨w, hw, -, -, hin⟩, -⟩ :=
    set_volume_clamps (1 / 2) { paused := false, queueEmpty := false, volume := 1 }
  rw [hin (by norm_num) (by norm_num)] at hw
  exact hw

/-- C4 counterexample: `set_volume 0.5` while Idle leaves the backend
bit-for-bit unchanged, and the next `play` starts at volume 1.0, not at
the configured 0.5 — the backend does not remember the value. -/
theorem set_volume_idle_forgotten :
    AudioPlayer.set_volume { sink := none } (1 / 2) = { sink := none } ∧
    ((AudioPlayer.set_volume { sink := none } (1 / 2)).play none).1.sink =
      some { paused := false, queueEmpty := false, volume := 1 } ∧
    (1 : Rat) ≠ 1 / 2 := by
  refine ⟨rfl, rfl, by norm_num⟩

/-- C9: `refresh_files` returns `Ok` and leaves the currently-playing
name, the paused flag, the volume, the backend (hence the playback
session) and the stored root directory unchanged: only the library, the
cursor, the list selection and the status message can differ. -/
theorem refresh_preserves_playback (fs : String → List (Except String FsEntry)) (a : App) :
    ∃ r, a.refresh_files fs = .ok r ∧
      r.current_playing = a.current_playing ∧
      r.is_paused = a.is_paused ∧
      r.volume = a.volume ∧
      r.audio_player = a.audio_player ∧
      r.music_directory = a.music_directory :=
  ⟨_, rfl, rfl, rfl, rfl, rfl, rfl⟩

/-- C10: every `Result`-returning controller operation the event loop
dispatches — `play_selected`, `play_next`, `play_previous`,
`refresh_files` — returns `Ok` on every state and every environment. -/
theorem controller_ops_never_fail (env : String → Option String)
    (fs : String → List (Except String FsEntry)) (a : App) :
    (∃ x, a.play_selected env = .ok x) ∧ (∃ x, a.play_next env = .ok x) ∧
    (∃ x, a.play_previous env = .ok x) ∧ (∃ x, a.refresh_files fs = .ok x) :=
  ⟨play_selected_ok env a, play_next_ok env a, play_previous_ok env a, refresh_ok fs a⟩

/-- C6: on a non-empty library the cursor wraps at both ends (`next` from
the last index reaches 0, `previous` from 0 reaches the last index); on an
empty library `next` and `previous` change nothing at all, so the list
selection stays `none`. -/
theorem cursor_wraparound (a : App) :
    (a.music_files = [] → a.next = a ∧ a.previous = a) ∧
    (a.music_files ≠ [] → a.selected_index = a.music_files.length - 1 →
      a.next.selected_index = 0) ∧
    (a.music_files ≠ [] → a.selected_index = 0 →
      a.previous.selected_index = a.music_files.length - 1) := by
  refine ⟨?_, ?_, ?_⟩
  · intro h
    have hemp : a.music_files.isEmpty = true := by simp [h]
    exact ⟨by unfold App.next; rw [if_pos hemp],
           by unfold App.previous; rw [if_pos hemp]⟩
  · intro hne hlast
    have hemp : ¬(a.music_files.isEmpty = true) := by simpa using hne
    have hpos : 0 < a.music_files.length := List.length_pos.mpr hne
    unfold App.next
    rw [if_neg hemp]
    simp [hlast, Nat.sub_add_cancel hpos, Nat.mod_self]
  · intro hne h0
    have hemp : ¬(a.music_files.isEmpty = true) := by simpa using hne
    unfold App.previous
    rw [if_neg hemp]
    simp [h0]

theorem clamp_lt (files : List MusicFile) (si : Nat) (hne : files ≠ []) :
    (if si ≥ files.length ∧ ¬files.isEmpty = true then files.length - 1 else si)
      < files.length := by
  have hpos : 0 < files.length := List.length_pos.mpr hne
  have hempf : files.isEmpty = false := by simpa using hne
  split
  · omega
  · rename_i hcond
    simp [hempf] at hcond
    omega

theorem clamp_eq (files : List MusicFile) (si : Nat)
    (hge : files.length ≤ si) (hne : files ≠ []) :
    (if si ≥ files.length ∧ ¬files.isEmpty = true then files.length - 1 else si)
      = files.length - 1 := by
  have hempf : files.isEmpty = false := by simpa using hne
  rw [if_pos ⟨hge, by simp [hempf]⟩]

theorem refresh_inv {fs : String → List (Except String FsEntry)} {a r : App}
    (h : a.refresh_files fs = .ok r) : cursorInv r := by
  unfold App.refresh_files scan_music_files at h
  simp only [Except.bind] at h
  injection h with h
  subst h
  intro hne
  exact clamp_lt _ _ hne

theorem refresh_clamp {fs : String → List (Except String FsEntry)} {a r : App}
    (h : a.refresh_files fs = .ok r)
    (hge : r.music_files.length ≤ a.selected_index) (hne : r.music_files ≠ []) :
    r.selected_index = r.music_files.length - 1 := by
  unfold App.refresh_files scan_music_files at h
  simp only [Except.bind] at h
  injection h with h
  subst h
  exact clamp_eq _ _ hge hne

theorem op_apply_inv (o : Op) (a : App) (h : cursorInv a) : cursorInv (o.apply a) := by
  cases o with
  | next => exact next_inv a
  | previous => exact previous_inv a h
  | playNext env =>
    cases hr : a.play_next env with
    | ok a2 =>
      have hres : (Op.playNext env).apply a = a2 := by simp [Op.apply, hr]
      rw [hres]
      obtain ⟨hmf, hsel⟩ := play_next_fields hr
      intro hne
      rw [hmf] at hne
      have hnext := next_inv a (by rw [next_music_files]; exact hne)
      rw [next_music_files] at hnext
      rw [hmf, hsel]
      exact hnext
    | error e =>
      have hres : (Op.playNext env).apply a = a := by simp [Op.apply, hr]
      rw [hres]; exact h
  | playPrevious env =>
    cases hr : a.play_previous env with
    | ok a2 =>
      have hres : (Op.playPrevious env).apply a = a2 := by simp [Op.apply, hr]
      rw [hres]
      obtain ⟨hmf, hsel⟩ := play_previous_fields hr
      intro hne
      rw [hmf] at hne
      have hprev := previous_inv a h (by rw [previous_music_files]; exact hne)
      rw [previous_music_files] at hprev
      rw [hmf, hsel]
      exact hprev
    | error e =>
      have hres : (Op.playPrevious env).apply a = a := by simp [Op.apply, hr]
      rw [hres]; exact h
  | refresh fs =>
    cases hr : a.refresh_files fs with
    | ok a2 =>
      have hres : (Op.refresh fs).apply a = a2 := by simp [Op.apply, hr]
      rw [hres]
      exact refresh_inv hr
    | error e =>
      have hres : (Op.refresh fs).apply a = a := by simp [Op.apply, hr]
      rw [hres]; exact h

theorem runOps_inv (ops : List Op) (a : App) (h : cursorInv a) :
    cursorInv (runOps ops a) := by
  induction ops generalizing a with
  | nil => exact h
  | cons o rest ih => exact ih _ (op_apply_inv o a h)

/-- C3: the cursor invariant `0 ≤ cursor < len(library)` (for non-empty
libraries) is preserved by every sequence of `next`, `previous`,
`play_next`, `play_previous` and `refresh` operations, and a refresh that
returns a library shorter than the cursor clamps the cursor to the last
valid index — in particular cursor 4 against a new library of length 2
becomes 1. -/
theorem cursor_always_in_range :
    (∀ (ops : List Op) (a : App), cursorInv a → cursorInv (runOps ops a)) ∧
    (∀ (a : App) (fs : String → List (Except String FsEntry)) (r : App),
      a.selected_index = 4 → a.refresh_files fs = .ok r → r.music_files.length = 2 →
      r.selected_index = 1) := by
  constructor
  · exact runOps_inv
  · intro a fs r h4 hr hlen
    have h1 := refresh_clamp hr (by rw [hlen, h4]; omega)
      (by intro hnil; rw [hnil] at hlen; cases hlen)
    rw [hlen] at h1
    exact h1

/-- C3 witness: a concrete run of the operations, and the concrete 4-to-1
clamp. -/
theorem cursor_always_in_range_witness :
    cursorInv (runOps [Op.next, Op.refresh fsTwo, Op.previous] appWrapLast) ∧
    appCursor4Refreshed.selected_index = 1 :=
  ⟨cursor_always_in_range.1 _ appWrapLast (by intro h; decide),
   cursor_always_in_range.2 appCursor4 fsTwo appCursor4Refreshed rfl (by decide) (by decide)⟩

/-- C5 (amended): whenever a track is marked playing, playback is not
paused, the backend reports finished, and the library is non-empty, the
auto-advance poll at the top of the event loop produces exactly the state
`play_next` produces — every field, the loop-back status wording
included.  (With an empty library the two differ: see the
counterexample.) -/
theorem auto_advance_matches_play_next (env : String → Option String) (a : App)
    (hplay : a.current_playing.isSome = true) (hpause : a.is_paused = false)
    (hfin : a.audio_player.is_empty = true) (hne : a.music_files ≠ []) :
    pollAutoAdvance env a = a.play_next env := by
  unfold pollAutoAdvance
  rw [if_pos (by simp [hplay, hpause, hfin])]
  exact play_next_status_irrel env a _ hne

/-- C5 witness: the equivalence evaluated on a concrete finished-track
state. -/
theorem auto_advance_matches_play_next_witness :
    pollAutoAdvance envOk appDone = appDone.play_next envOk :=
  auto_advance_matches_play_next envOk appDone rfl rfl rfl (by decide)

/-- C5 counterexample: in a state satisfying every hypothesis of the
claim except that the library is empty (a refresh of an emptied directory
during playback produces it), the poll leaves the transient status
`Auto-advancing to next song...` while a direct `play_next` changes
nothing — the resulting states differ. -/
theorem auto_advance_empty_library_differs :
    appGone.current_playing.isSome = true ∧ appGone.is_paused = false ∧
    appGone.audio_player.is_empty = true ∧ appGone.music_files = [] ∧
    pollAutoAdvance envOk appGone ≠ App.play_next envOk appGone := by
  refine ⟨rfl, rfl, rfl, rfl, by decide⟩

/-- C7 (amended): for every readable tree, `scan` returns exactly one
track per walker entry whose extension matches the set (case
insensitively) — whether or not the entry is a regular file, since the
scan filters by extension only and never checks the file type — each
track carrying the entry's full path and its base name, and no track
references an entry with an unrecognized or missing extension. -/
theorem scan_extension_filter (tree : List FsEntry) :
    ∃ files, scan_music_files (tree.map Except.ok) = .ok files ∧
      files.length = (tree.filter fun e => matchesExt e.path).length ∧
      (∀ t ∈ files, ∃ e ∈ tree, t.path = e.path ∧ matchesExt e.path = true ∧
        fileName e.path = some t.name) ∧
      (∀ e ∈ tree, matchesExt e.path = true →
        ∃ t ∈ files, t.path = e.path ∧ fileName e.path = some t.name) ∧
      (∀ e ∈ tree, matchesExt e.path = false → ∀ t ∈ files, t.path ≠ e.path) := by
  have hfm : (tree.map Except.ok).filterMap
      (fun e : Except String FsEntry =>
        match e with | .ok ent => toTrack ent.path | .error _ => none) =
      tree.filterMap (fun e => toTrack e.path) := by
    rw [List.filterMap_map]
    rfl
  refine ⟨sortByLe musicFileLe (tree.filterMap fun e => toTrack e.path),
    congrArg (fun l => Except.ok (sortByLe musicFileLe l)) hfm, ?_, ?_, ?_, ?_⟩
  case _ =>
    have hperm := sortByLe_perm musicFileLe (tree.filterMap fun e => toTrack e.path)
    have hpred : (fun e : FsEntry => (toTrack e.path).isSome) =
        fun e => matchesExt e.path := funext fun e => toTrack_isSome e.path
    calc (sortByLe musicFileLe (tree.filterMap fun e => toTrack e.path)).length
        = (tree.filterMap fun e => toTrack e.path).length := hperm.length_eq
      _ = (tree.filter fun e => (toTrack e.path).isSome).length :=
          length_filterMap_isSome _ _
      _ = (tree.filter fun e => matchesExt e.path).length := by rw [hpred]
  case _ =>
    intro t ht
    have hperm := sortByLe_perm musicFileLe (tree.filterMap fun e => toTrack e.path)
    have ht2 : t ∈ tree.filterMap fun e => toTrack e.path := hperm.mem_iff.mp ht
    obtain ⟨e, he, hte⟩ := List.mem_filterMap.mp ht2
    obtain ⟨hp, hn, hm⟩ := toTrack_eq_some hte
    exact ⟨e, he, hp, hm, by rw [hn]⟩
  case _ =>
    intro e he hm
    have hperm := sortByLe_perm musicFileLe (tree.filterMap fun e => toTrack e.path)
    obtain ⟨n, hn, htr⟩ := matchesExt_toTrack hm
    refine ⟨{ path := e.path, name := n }, ?_, rfl, hn⟩
    exact hperm.mem_iff.mpr (List.mem_filterMap.mpr ⟨e, he, htr⟩)
  case _ =>
    intro e he hfalse t ht hteq
    have hperm := sortByLe_perm musicFileLe (tree.filterMap fun e => toTrack e.path)
    have ht2 : t ∈ tree.filterMap fun e => toTrack e.path := hperm.mem_iff.mp ht
    obtain ⟨e2, he2, hte2⟩ := List.mem_filterMap.mp ht2
    obtain ⟨hp, hn, hm⟩ := toTrack_eq_some hte2
    rw [hteq] at hp
    rw [hp] at hfalse
    rw [hfalse] at hm
    cases hm

/-- C7 witness: the amended statement on a concrete tree with one
matching file and one excluded file. -/
theorem scan_extension_filter_witness :
    ∃ files, scan_music_files (treeMixed.map Except.ok) = .ok files ∧
      files.length = (treeMixed.filter fun e => matchesExt e.path).length ∧
      ∃ t ∈ files, t.path = "m/a.mp3" := by
  obtain ⟨files, h1, h2, h3, h4, h5⟩ := scan_extension_filter treeMixed
  obtain ⟨t, ht, htp, htn⟩ :=
    h4 { path := "m/a.mp3", isDir := false } (by decide) (by decide)
  exact ⟨files, h1, h2, t, ht, htp⟩

/-- C7 counterexample: a tree with zero regular files (N = 0, M = 0)
where a directory is named `album.mp3`: the claim demands zero tracks,
but `scan` returns one track for the directory. -/
theorem scan_includes_matching_directory :
    ((treeDirMp3.filter fun e => !e.isDir).length = 0) ∧
    ((treeDirMp3.filter fun e => !e.isDir && matchesExt e.path).length = 0) ∧
    scan_music_files (treeDirMp3.map Except.ok) =
      .ok [{ path := "m/album.mp3", name := "album.mp3" }] := by
  refine ⟨by decide, by decide, by decide⟩

/-- C8: `play_next` from the last index of a non-empty library always
sets the explicit loop-back status (naming the first track), and that
status differs from the status `play_next` sets from any non-last index
(a normal advance message or a play-error message), whatever the
environments did. -/
theorem play_next_loopback_distinct (a b : App) (env1 env2 : String → Option String)
    (ra rb : App)
    (hane : a.music_files ≠ []) (halast : a.selected_index = a.music_files.length - 1)
    (hbne : b.music_files ≠ []) (hbmid : b.selected_index < b.music_files.length - 1)
    (hra : a.play_next env1 = .ok ra) (hrb : b.play_next env2 = .ok rb) :
    (∃ f, a.music_files[0]? = some f ∧
      ra.status_message = "♪ Looped to beginning - Playing: " ++ f.name) ∧
    ra.status_message ≠ rb.status_message := by
  have hempa : ¬(a.music_files.isEmpty = true) := by simpa using hane
  have hpos : 0 < a.music_files.length := List.length_pos.mpr hane
  obtain ⟨a2, ha2⟩ := play_selected_ok env1 a.next
  have hm2 : a2.music_files = a.music_files := by
    rw [(play_selected_fields ha2).1, next_music_files]
  obtain ⟨f, hf⟩ : ∃ f, a.music_files[0]? = some f :=
    ⟨_, List.getElem?_eq_getElem hpos⟩
  unfold App.play_next at hra
  rw [if_neg hempa] at hra
  simp only [ha2, Except.bind] at hra
  rw [if_pos halast] at hra
  rw [hm2, hf] at hra
  dsimp only at hra
  injection hra with hra
  subst hra
  refine ⟨⟨f, hf, rfl⟩, ?_⟩
  have hempb : ¬(b.music_files.isEmpty = true) := by simpa using hbne
  have hbne2 : b.next.music_files ≠ [] := by rw [next_music_files]; exact hbne
  have hidx : b.next.selected_index < b.next.music_files.length := next_inv b hbne2
  obtain ⟨g, hg⟩ : ∃ g, b.next.music_files[b.next.selected_index]? = some g :=
    ⟨_, List.getElem?_eq_getElem hidx⟩
  have hnotend : ¬(b.selected_index = b.music_files.length - 1) := by omega
  unfold App.play_next at hrb
  rw [if_neg hempb] at hrb
  cases henv : env2 g.path with
  | none =>
    have hps := play_selected_success_state env2 b.next hg henv
    simp only [hps, Except.bind] at hrb
    rw [if_neg hnotend] at hrb
    injection hrb with hrb
    subst hrb
    exact string_append_ne 2 'L' 'P' (by decide) (by decide) (by decide) _ _
  | some e =>
    have hps := play_selected_failure_state env2 b.next hg henv
    simp only [hps, Except.bind] at hrb
    rw [if_neg hnotend] at hrb
    injection hrb with hrb
    subst hrb
    exact string_append_ne 0 '♪' 'E' (by decide) (by decide) (by decide) _ _

/-- C8 witness: the distinct statuses on a concrete two-track library. -/
theorem play_next_loopback_distinct_witness :
    (∃ f, appLast.music_files[0]? = some f ∧
      appLastNexted.status_message = "♪ Looped to beginning - Playing: " ++ f.name) ∧
    appLastNexted.status_message ≠ appFirstNexted.status_message :=
  play_next_loopback_distinct appLast appFirst envOk envOk appLastNexted appFirstNexted
    (by decide) (by decide) (by decide) (by decide) (by decide) (by decide)

/-- C6 witness: wraparound evaluated on concrete libraries, and the empty
no-op on the empty state. -/
theorem cursor_wraparound_witness :
    (baseApp.next = baseApp ∧ baseApp.previous = baseApp) ∧
    appWrapLast.next.selected_index = 0 ∧
    appWrapFirst.previous.selected_index = appWrapFirst.music_files.length - 1 :=
  ⟨(cursor_wraparound baseApp).1 rfl,
   (cursor_wraparound appWrapLast).2.1 (by decide) (by decide),
   (cursor_wraparound appWrapFirst).2.2 (by decide) rfl⟩
